import Mathlib

/-!
# Verification of the aio-tools core algorithms

This development shallowly embeds the two algorithmic cores of the
repository and proves properties of them:

* `src/lib/tools/pdf-compressor.ts`: the target-size quality search of
  `compressPDF` (lines 195–305).  The two external collaborators are
  abstracted as oracles, exactly as the design document describes them:
  the document assembler `generatePDFFromCanvases(pages, quality)` becomes
  a function `f : ℚ → ℚ` from quality to the byte size of the assembled
  blob (the rendered pages are fixed for the whole search, so they are
  folded into `f`; the blob produced at quality `q` is identified by `q`,
  its byte size being `f q`, which is faithful because the assembler is
  deterministic).  Qualities and sizes are rational numbers, following the
  design document's "quality is a real number in [0.1, 1.0]" data model.

* `src/lib/tools/json-formatter.ts`: `validateJSON`, `formatJSON`,
  `minifyJSON` and `sortObjectKeys`.  The host functions `JSON.parse` and
  `JSON.stringify` are external collaborators and are abstracted as an
  oracle record `JSHost`.

Progress reporting: every `onProgress` invocation inside the target-size
block of `compressPDF` is modelled by one constructor of `PEvent`, one per
call site, recording the data that call site passes (the `stage` value and
the optional `attempt` index; the free-text `message` and the constant
page counters are not modelled).
-/

/-- The `stage` field of `CompressionProgress` (pdf-compressor.ts lines 21–27). -/
inductive Stage where
  | loading
  | rendering
  | compressing
  | generating
  | optimizing
  | complete
deriving DecidableEq, Repr

/-- One `onProgress` invocation of the target-size block of `compressPDF`
(and of the standard path), one constructor per call site:
`optStart` = line 203 (attempt 0), `probe` = line 215 (attempt 1),
`bisect a` = line 237 (attempt `a`), `refine` = line 270 (no attempt),
`fallback` = line 295 (no attempt), `generating` = line 308,
`complete` = line 320. -/
inductive PEvent where
  | optStart
  | probe
  | bisect (a : ℕ)
  | refine
  | fallback
  | generating
  | complete
deriving DecidableEq, Repr

/-- The `stage` value each call site passes: every call in the target-size
block passes `"optimizing"`. -/
def PEvent.stage : PEvent → Stage
  | .optStart => .optimizing
  | .probe => .optimizing
  | .bisect _ => .optimizing
  | .refine => .optimizing
  | .fallback => .optimizing
  | .generating => .generating
  | .complete => .complete

/-- The `attempt` field each call site passes (`none` = the field is
absent from the object literal in the source). -/
def PEvent.attempt : PEvent → Option ℕ
  | .optStart => some 0
  | .probe => some 1
  | .bisect a => some a
  | .refine => none
  | .fallback => none
  | .generating => none
  | .complete => none

/-- The mutable state of the target-size search (pdf-compressor.ts lines
198–201), instrumented with the trace of assembler calls (the quality
passed to each `generatePDFFromCanvases` invocation, in order) and the
trace of `onProgress` invocations.  `bestBlob` holds the quality at which
the best blob was assembled (`none` = the `bestBlob` variable is null). -/
structure SearchSt where
  minQuality : ℚ
  maxQuality : ℚ
  bestBlob : Option ℚ
  bestQuality : ℚ
  calls : List ℚ
  events : List PEvent
deriving DecidableEq, Repr

/-- One iteration of the bisection `for` loop (lines 234–259):
test the midpoint, record the progress event and the assembler call,
and either record a new best (raising `minQuality`) or lower
`maxQuality`. -/
def bisectStep (f : ℚ → ℚ) (targetBytes : ℚ) (attempt : ℕ) (s : SearchSt) : SearchSt :=
  let testQuality := (s.minQuality + s.maxQuality) / 2
  let s1 := { s with events := s.events ++ [PEvent.bisect attempt],
                     calls := s.calls ++ [testQuality] }
  if f testQuality ≤ targetBytes then
    { s1 with bestBlob := some testQuality, bestQuality := testQuality,
              minQuality := testQuality }
  else
    { s1 with maxQuality := testQuality }

/-- The bisection `for` loop (lines 231–259): `attempt` counts from 1,
the fuel is `maxAttempts = 6`. -/
def bisectLoop (f : ℚ → ℚ) (targetBytes : ℚ) : ℕ → ℕ → SearchSt → SearchSt
  | _, 0, s => s
  | attempt, n + 1, s =>
      bisectLoop f targetBytes (attempt + 1) n (bisectStep f targetBytes attempt s)

/-- The refinement `while` loop (lines 263–288): runs while a best blob
exists, `bestQuality < maxQuality - 0.005`, and fewer than
`maxRefinementPasses = 4` passes have been made (the fuel argument). -/
def refineLoop (f : ℚ → ℚ) (targetBytes : ℚ) : ℕ → SearchSt → SearchSt
  | 0, s => s
  | n + 1, s =>
      if s.bestBlob.isSome ∧ s.bestQuality < s.maxQuality - 5 / 1000 then
        let refinedQuality := (s.bestQuality + s.maxQuality) / 2
        let s1 := { s with events := s.events ++ [PEvent.refine],
                           calls := s.calls ++ [refinedQuality] }
        if f refinedQuality ≤ targetBytes then
          refineLoop f targetBytes n
            { s1 with bestBlob := some refinedQuality, bestQuality := refinedQuality }
        else
          refineLoop f targetBytes n { s1 with maxQuality := refinedQuality }
      else s

/-- The search state as initialized at lines 198–209: bracket `[0.1, 1.0]`,
no best blob, `bestQuality = 0.1`, the line-203 progress call emitted. -/
def initSearch : SearchSt :=
  { minQuality := 1 / 10, maxQuality := 1, bestBlob := none, bestQuality := 1 / 10,
    calls := [], events := [PEvent.optStart] }

/-- The state just after the line-215 progress call and the quality-1.0
ceiling probe assembly (line 223). -/
def probedSearch : SearchSt :=
  { initSearch with events := initSearch.events ++ [PEvent.probe],
                    calls := initSearch.calls ++ [(1 : ℚ)] }

/-- The result of the target-size branch: the quality at which the
returned blob was assembled, its byte size, the reported `finalQuality`,
and the two instrumentation traces. -/
structure TargetRun where
  blobQ : ℚ
  blobSize : ℚ
  finalQuality : ℚ
  calls : List ℚ
  events : List PEvent
deriving DecidableEq, Repr

/-- The target-size branch of `compressPDF` (pdf-compressor.ts lines
197–305) over the assembler oracle `f`: ceiling probe at quality 1.0
(lines 215–229), else bisection (231–259) then refinement (261–290),
then the quality-0.1 fallback when no candidate ever fit (293–303). -/
def compressToTarget (f : ℚ → ℚ) (targetBytes : ℚ) : TargetRun :=
  if f 1 ≤ targetBytes then
    { blobQ := 1, blobSize := f 1, finalQuality := 1,
      calls := probedSearch.calls, events := probedSearch.events }
  else
    let s3 := refineLoop f targetBytes 4 (bisectLoop f targetBytes 1 6 probedSearch)
    match s3.bestBlob with
    | some q =>
        { blobQ := q, blobSize := f q, finalQuality := s3.bestQuality,
          calls := s3.calls, events := s3.events }
    | none =>
        { blobQ := 1 / 10, blobSize := f (1 / 10), finalQuality := 1 / 10,
          calls := s3.calls ++ [(1 / 10 : ℚ)],
          events := s3.events ++ [PEvent.fallback] }

/-- `CompressionSettings` (pdf-compressor.ts lines 15–19); `dpi` is fixed
into the rendered pages, themselves folded into the assembler oracle. -/
structure CompressionSettings where
  quality : ℚ
  targetSizeMB : Option ℚ
deriving Repr

/-- The observable outcome of `compressPDF`: the returned blob (as the
quality it was assembled at), `compressedSize`, the optional
`finalQuality` of the result record (line 333), and the traces. -/
structure CompressionResult where
  blobQ : ℚ
  compressedSize : ℚ
  finalQuality : Option ℚ
  calls : List ℚ
  events : List PEvent
deriving Repr

/-- The standard (non-target) path of `compressPDF` (lines 306–316). -/
def compressStandard (f : ℚ → ℚ) (settings : CompressionSettings) : CompressionResult :=
  { blobQ := settings.quality, compressedSize := f settings.quality,
    finalQuality := none,
    calls := [settings.quality],
    events := [PEvent.generating, PEvent.complete] }

/-- `compressPDF` (pdf-compressor.ts lines 181–335) over the assembler
oracle: the `if (settings.targetSizeMB)` truthiness test selects the
target-size branch exactly when the field is present and nonzero, with
`targetBytes = targetSizeMB * 1024 * 1024` (line 197). -/
def compressPDF (f : ℚ → ℚ) (settings : CompressionSettings) : CompressionResult :=
  match settings.targetSizeMB with
  | some mb =>
      if mb ≠ 0 then
        let r := compressToTarget f (mb * 1024 * 1024)
        { blobQ := r.blobQ, compressedSize := r.blobSize,
          finalQuality := some r.finalQuality,
          calls := r.calls, events := r.events ++ [PEvent.complete] }
      else compressStandard f settings
  | none => compressStandard f settings

/-- The bisection-phase search-state invariant: the bracket is ordered;
the best candidate, when present, fits the target, is the recorded
`bestQuality`, and equals `minQuality`; when absent, `bestQuality` and
`minQuality` are still the initial floor 0.1; and `maxQuality` is either
the initial ceiling 1.0 or a quality whose assembled size exceeds the
target. -/
def InvB (f : ℚ → ℚ) (targetBytes : ℚ) (s : SearchSt) : Prop :=
  s.minQuality ≤ s.maxQuality ∧
  (∀ q, s.bestBlob = some q → s.bestQuality = q ∧ f q ≤ targetBytes ∧ s.minQuality = q) ∧
  (s.bestBlob = none → s.bestQuality = 1 / 10 ∧ s.minQuality = 1 / 10) ∧
  (s.maxQuality = 1 ∨ targetBytes < f s.maxQuality)

/-- The refinement-phase search-state invariant: as `InvB`, except that
`minQuality` (which the refinement loop never updates) is only a lower
bound on `bestQuality`, no longer equal to it. -/
def InvR (f : ℚ → ℚ) (targetBytes : ℚ) (s : SearchSt) : Prop :=
  s.minQuality ≤ s.maxQuality ∧
  s.minQuality ≤ s.bestQuality ∧ s.bestQuality ≤ s.maxQuality ∧
  (∀ q, s.bestBlob = some q → s.bestQuality = q ∧ f q ≤ targetBytes) ∧
  (s.bestBlob = none → s.bestQuality = 1 / 10 ∧ s.minQuality = 1 / 10) ∧
  (s.maxQuality = 1 ∨ targetBytes < f s.maxQuality)

/-- A concrete assembler oracle: blobs at quality ≤ 0.56 are 500 bytes,
larger qualities give 2000 bytes.  Against a 1000-byte target the
bisection phase fixes the best candidate at quality 0.55 and the
refinement phase then improves it without touching `minQuality`. -/
def cexAssembler : ℚ → ℚ := fun q => if q ≤ 14 / 25 then 500 else 2000

/-! ## The JSON formatter (src/lib/tools/json-formatter.ts) -/

/-- JSON values, as produced by the host `JSON.parse` and consumed by the
host `JSON.stringify`; objects are ordered key/value field lists. -/
inductive Json where
  | null
  | bool (b : Bool)
  | num (q : ℚ)
  | str (s : String)
  | arr (elts : List Json)
  | obj (fields : List (String × Json))

/-- Insertion of one field into a key-sorted field list, by the string
order that `Object.keys(obj).sort()` uses. -/
def insertPair (kv : String × Json) : List (String × Json) → List (String × Json)
  | [] => [kv]
  | x :: xs => if kv.1 ≤ x.1 then kv :: x :: xs else x :: insertPair kv xs

/-- Sorting a field list by key (the `Object.keys(obj).sort()` step of
`sortObjectKeys`). -/
def sortPairs (l : List (String × Json)) : List (String × Json) :=
  l.foldr insertPair []

mutual

/-- `sortObjectKeys` (json-formatter.ts lines 177–194): recursively sort
object keys alphabetically; arrays are mapped elementwise, scalars are
returned unchanged. -/
def sortObjectKeys : Json → Json
  | .arr elts => .arr (sortJsonList elts)
  | .obj fields => .obj (sortPairs (sortJsonFields fields))
  | j => j

/-- Elementwise recursion of `sortObjectKeys` over an array's elements. -/
def sortJsonList : List Json → List Json
  | [] => []
  | x :: xs => sortObjectKeys x :: sortJsonList xs

/-- Valuewise recursion of `sortObjectKeys` over an object's fields. -/
def sortJsonFields : List (String × Json) → List (String × Json)
  | [] => []
  | (k, v) :: xs => (k, sortObjectKeys v) :: sortJsonFields xs

end

/-- The host JSON functions used by json-formatter.ts, abstracted as an
oracle: `parse` models `JSON.parse` (the parsed value, or the thrown
`SyntaxError`'s message), `stringifyWith v ind` models
`JSON.stringify(v, null, ind)`, and `stringify v` models
`JSON.stringify(v)`. -/
structure JSHost where
  parse : String → Except String Json
  stringifyWith : Json → String → String
  stringify : Json → String

/-- The `error` record of `ValidationResult` (json-formatter.ts lines 15–20). -/
structure JsonError where
  message : String
  line : Option ℕ
  column : Option ℕ
  position : Option ℕ
deriving Repr

/-- `ValidationResult` (json-formatter.ts lines 13–21). -/
structure ValidationResult where
  isValid : Bool
  error : Option JsonError
deriving Repr

/-- JavaScript's `String.prototype.trim` (used by `validateJSON` line 39),
modelled on the character list. -/
def jsTrim (s : String) : String :=
  String.mk (((s.data.dropWhile Char.isWhitespace).reverse.dropWhile Char.isWhitespace).reverse)

/-- The numeral captured by `(\d+)` as read by `parseInt(match[1], 10)`
(json-formatter.ts line 49). -/
def digitsToNat (ds : List Char) : ℕ :=
  ds.foldl (fun n c => n * 10 + (c.toNat - Char.toNat '0')) 0

/-- The first match of the regex `/at position (\d+)/` (line 48): scan for
the first occurrence of "at position " that is followed by at least one
digit, and return that digit run's value. -/
def findAtPosition : List Char → Option ℕ
  | [] => none
  | c :: rest =>
      let pat := "at position ".data
      if pat.isPrefixOf (c :: rest) then
        let ds := ((c :: rest).drop pat.length).takeWhile Char.isDigit
        if ds = [] then findAtPosition rest else some (digitsToNat ds)
      else findAtPosition rest

/-- The `error.message.match(/at position (\d+)/)` extraction of
`validateJSON` (lines 48–49). -/
def msgPosition (msg : String) : Option ℕ :=
  findAtPosition msg.data

/-- JavaScript's `split("\n")` (line 56), on the character list. -/
def splitNewlines : List Char → List (List Char)
  | [] => [[]]
  | c :: rest =>
      if c = '\n' then [] :: splitNewlines rest
      else
        match splitNewlines rest with
        | [] => [[c]]
        | h :: t => (c :: h) :: t

/-- `validateJSON` (json-formatter.ts lines 38–71) over the host oracle:
empty/whitespace-only input is invalid with message "Input is empty";
otherwise a parse failure is invalid with the host's error message, and
when a position was extracted from it, line/column are derived from
`input.substring(0, position).split("\n")` as in lines 55–59. -/
def validateJSON (H : JSHost) (input : String) : ValidationResult :=
  if jsTrim input = "" then
    { isValid := false,
      error := some { message := "Input is empty",
                      line := none, column := none, position := none } }
  else
    match H.parse input with
    | .ok _ => { isValid := true, error := none }
    | .error msg =>
        let position := msgPosition msg
        let lines := position.map (fun p => splitNewlines (input.data.take p))
        { isValid := false,
          error := some { message := msg,
                          line := lines.map List.length,
                          column := lines.map (fun ls => (ls.getLastD []).length + 1),
                          position := position } }

/-- `IndentChar` values of `FormatOptions.indentChar` (line 9). -/
inductive IndentChar where
  | space
  | tab
deriving DecidableEq, Repr

/-- `FormatOptions` (json-formatter.ts lines 7–11). -/
structure FormatOptions where
  indentSize : ℕ
  indentChar : IndentChar
  sortKeys : Bool
deriving Repr

/-- `DEFAULT_FORMAT_OPTIONS` (json-formatter.ts lines 29–33). -/
def DEFAULT_FORMAT_OPTIONS : FormatOptions :=
  { indentSize := 2, indentChar := .space, sortKeys := false }

/-- `FormatResult` (json-formatter.ts lines 23–27). -/
structure FormatResult where
  success : Bool
  output : String
  error : Option String
deriving Repr

/-- `formatJSON` (json-formatter.ts lines 76–109) over the host oracle:
on invalid input, return the input unchanged with the validation error's
message; otherwise parse, optionally sort keys, and stringify with the
chosen indent (`" ".repeat(indentSize)` or a tab). -/
def formatJSON (H : JSHost) (input : String) (options : FormatOptions) : FormatResult :=
  let validation := validateJSON H input
  if validation.isValid = false then
    { success := false, output := input,
      error := validation.error.map JsonError.message }
  else
    match H.parse input with
    | .ok parsed =>
        let parsed := if options.sortKeys then sortObjectKeys parsed else parsed
        let indent := if options.indentChar = IndentChar.tab then "\t"
                      else String.mk (List.replicate options.indentSize ' ')
        { success := true, output := H.stringifyWith parsed indent, error := none }
    | .error msg => { success := false, output := input, error := some msg }

/-- `minifyJSON` (json-formatter.ts lines 114–140) over the host oracle. -/
def minifyJSON (H : JSHost) (input : String) : FormatResult :=
  let validation := validateJSON H input
  if validation.isValid = false then
    { success := false, output := input,
      error := validation.error.map JsonError.message }
  else
    match H.parse input with
    | .ok parsed => { success := true, output := H.stringify parsed, error := none }
    | .error msg => { success := false, output := input, error := some msg }

/-- A one-value host used to exercise the definitions on concrete input:
it parses the string "1" to the number 1 and prints every value as "1". -/
def oneHost : JSHost :=
  { parse := fun s => if s = "1" then .ok (.num 1) else .error "Unexpected token",
    stringifyWith := fun _ _ => "1",
    stringify := fun _ => "1" }

/-- A host whose `JSON.parse` rejects every string with the message
"bad", used to exercise the error paths on concrete input. -/
def errHost : JSHost :=
  { parse := fun _ => .error "bad",
    stringifyWith := fun _ _ => "",
    stringify := fun _ => "" }

/-! ## Helper lemmas: the bisection phase -/

theorem bisectStep_eq (f : ℚ → ℚ) (t : ℚ) (a : ℕ) (s : SearchSt) :
    bisectStep f t a s =
      if f ((s.minQuality + s.maxQuality) / 2) ≤ t then
        { s with minQuality := (s.minQuality + s.maxQuality) / 2,
                 bestBlob := some ((s.minQuality + s.maxQuality) / 2),
                 bestQuality := (s.minQuality + s.maxQuality) / 2,
                 calls := s.calls ++ [(s.minQuality + s.maxQuality) / 2],
                 events := s.events ++ [PEvent.bisect a] }
      else
        { s with maxQuality := (s.minQuality + s.maxQuality) / 2,
                 calls := s.calls ++ [(s.minQuality + s.maxQuality) / 2],
                 events := s.events ++ [PEvent.bisect a] } := rfl

theorem bisectStep_width (f : ℚ → ℚ) (t : ℚ) (a : ℕ) (s : SearchSt) :
    (bisectStep f t a s).maxQuality - (bisectStep f t a s).minQuality
      = (s.maxQuality - s.minQuality) / 2 := by
  rw [bisectStep_eq]
  split <;> dsimp <;> ring

theorem bisectLoop_succ (f : ℚ → ℚ) (t : ℚ) (a n : ℕ) (s : SearchSt) :
    bisectLoop f t a (n + 1) s = bisectLoop f t (a + 1) n (bisectStep f t a s) := rfl

theorem bisectLoop_width (f : ℚ → ℚ) (t : ℚ) :
    ∀ (n a : ℕ) (s : SearchSt),
      (bisectLoop f t a n s).maxQuality - (bisectLoop f t a n s).minQuality
        = (s.maxQuality - s.minQuality) / 2 ^ n := by
  intro n
  induction n with
  | zero => intro a s; simp [bisectLoop]
  | succ n ih =>
      intro a s
      rw [bisectLoop_succ, ih (a + 1) (bisectStep f t a s), bisectStep_width, div_div]
      ring_nf

theorem bisectStep_calls (f : ℚ → ℚ) (t : ℚ) (a : ℕ) (s : SearchSt) :
    (bisectStep f t a s).calls = s.calls ++ [(s.minQuality + s.maxQuality) / 2] := by
  rw [bisectStep_eq]
  split <;> rfl

theorem bisectStep_events (f : ℚ → ℚ) (t : ℚ) (a : ℕ) (s : SearchSt) :
    (bisectStep f t a s).events = s.events ++ [PEvent.bisect a] := by
  rw [bisectStep_eq]
  split <;> rfl

theorem bisectLoop_calls_length (f : ℚ → ℚ) (t : ℚ) :
    ∀ (n a : ℕ) (s : SearchSt),
      (bisectLoop f t a n s).calls.length = s.calls.length + n := by
  intro n
  induction n with
  | zero => intro a s; simp [bisectLoop]
  | succ n ih =>
      intro a s
      rw [bisectLoop_succ, ih (a + 1) (bisectStep f t a s), bisectStep_calls,
        List.length_append]
      simp only [List.length_singleton]
      omega

theorem bisectLoop_events (f : ℚ → ℚ) (t : ℚ) :
    ∀ (n a : ℕ) (s : SearchSt),
      (bisectLoop f t a n s).events
        = s.events ++ (List.range n).map (fun i => PEvent.bisect (a + i)) := by
  intro n
  induction n with
  | zero => intro a s; simp [bisectLoop]
  | succ n ih =>
      intro a s
      rw [bisectLoop_succ, ih (a + 1) (bisectStep f t a s), bisectStep_events,
        List.range_succ_eq_map]
      have hfun : ((fun i => PEvent.bisect (a + i)) ∘ Nat.succ)
          = fun i => PEvent.bisect (a + 1 + i) := by
        funext i
        have h : a + Nat.succ i = a + 1 + i := by omega
        simp [Function.comp, h]
      rw [List.map_cons, List.map_map, hfun, List.append_assoc, List.singleton_append]
      simp

theorem invB_probedSearch (f : ℚ → ℚ) (t : ℚ) : InvB f t probedSearch := by
  refine ⟨by norm_num [probedSearch, initSearch], ?_, ?_, Or.inl rfl⟩
  · intro q hq
    simp [probedSearch, initSearch] at hq
  · intro _
    exact ⟨rfl, rfl⟩

theorem invB_bisectStep (f : ℚ → ℚ) (t : ℚ) (a : ℕ) (s : SearchSt)
    (h : InvB f t s) : InvB f t (bisectStep f t a s) := by
  obtain ⟨h1, h2, h3, h4⟩ := h
  rw [bisectStep_eq]
  by_cases hfit : f ((s.minQuality + s.maxQuality) / 2) ≤ t
  · rw [if_pos hfit]
    refine ⟨by dsimp; linarith, ?_, ?_, ?_⟩
    · intro q hq
      dsimp at hq ⊢
      obtain rfl : (s.minQuality + s.maxQuality) / 2 = q := Option.some_inj.mp hq
      exact ⟨rfl, hfit, rfl⟩
    · intro hq
      simp at hq
    · dsimp
      exact h4
  · rw [if_neg hfit]
    refine ⟨by dsimp; linarith, ?_, ?_, ?_⟩
    · intro q hq
      dsimp at hq ⊢
      obtain ⟨e1, e2, e3⟩ := h2 q hq
      exact ⟨e1, e2, e3⟩
    · intro hq
      dsimp at hq ⊢
      exact h3 hq
    · dsimp
      right
      linarith [not_le.mp hfit]

theorem invB_bisectLoop (f : ℚ → ℚ) (t : ℚ) :
    ∀ (n a : ℕ) (s : SearchSt), InvB f t s → InvB f t (bisectLoop f t a n s) := by
  intro n
  induction n with
  | zero => intro a s h; exact h
  | succ n ih => intro a s h; exact ih (a + 1) _ (invB_bisectStep f t a s h)

/-! ## Helper lemmas: the refinement phase -/

theorem refineLoop_succ_eq (f : ℚ → ℚ) (t : ℚ) (n : ℕ) (s : SearchSt) :
    refineLoop f t (n + 1) s =
      if s.bestBlob.isSome ∧ s.bestQuality < s.maxQuality - 5 / 1000 then
        (if f ((s.bestQuality + s.maxQuality) / 2) ≤ t then
          refineLoop f t n
            { s with bestBlob := some ((s.bestQuality + s.maxQuality) / 2),
                     bestQuality := (s.bestQuality + s.maxQuality) / 2,
                     calls := s.calls ++ [(s.bestQuality + s.maxQuality) / 2],
                     events := s.events ++ [PEvent.refine] }
        else
          refineLoop f t n
            { s with maxQuality := (s.bestQuality + s.maxQuality) / 2,
                     calls := s.calls ++ [(s.bestQuality + s.maxQuality) / 2],
                     events := s.events ++ [PEvent.refine] })
      else s := rfl

theorem refineLoop_of_none (f : ℚ → ℚ) (t : ℚ) :
    ∀ (n : ℕ) (s : SearchSt), s.bestBlob = none → refineLoop f t n s = s := by
  intro n
  cases n with
  | zero => intro s _; rfl
  | succ n =>
      intro s h
      rw [refineLoop_succ_eq, if_neg]
      rintro ⟨h1, -⟩
      rw [h] at h1
      simp at h1

theorem refineLoop_of_gap (f : ℚ → ℚ) (t : ℚ) :
    ∀ (n : ℕ) (s : SearchSt), s.maxQuality - s.bestQuality < 5 / 1000 →
      refineLoop f t n s = s := by
  intro n
  cases n with
  | zero => intro s _; rfl
  | succ n =>
      intro s h
      rw [refineLoop_succ_eq, if_neg]
      rintro ⟨-, h2⟩
      linarith

theorem refineLoop_calls_length_le (f : ℚ → ℚ) (t : ℚ) :
    ∀ (n : ℕ) (s : SearchSt),
      (refineLoop f t n s).calls.length ≤ s.calls.length + n := by
  intro n
  induction n with
  | zero => intro s; simp [refineLoop]
  | succ n ih =>
      intro s
      rw [refineLoop_succ_eq]
      split
      · split
        · refine le_trans (ih _) ?_
          simp only [List.length_append, List.length_singleton]
          omega
        · refine le_trans (ih _) ?_
          simp only [List.length_append, List.length_singleton]
          omega
      · omega

theorem refineLoop_events_replicate (f : ℚ → ℚ) (t : ℚ) :
    ∀ (n : ℕ) (s : SearchSt), ∃ k, k ≤ n ∧
      (refineLoop f t n s).events = s.events ++ List.replicate k PEvent.refine := by
  intro n
  induction n with
  | zero => intro s; exact ⟨0, le_refl 0, by simp [refineLoop]⟩
  | succ n ih =>
      intro s
      rw [refineLoop_succ_eq]
      split
      · split
        · obtain ⟨k, hk, he⟩ := ih _
          refine ⟨k + 1, by omega, ?_⟩
          rw [he]
          simp [List.replicate_succ, List.append_assoc]
        · obtain ⟨k, hk, he⟩ := ih _
          refine ⟨k + 1, by omega, ?_⟩
          rw [he]
          simp [List.replicate_succ, List.append_assoc]
      · exact ⟨0, by omega, by simp⟩

theorem invR_refineLoop (f : ℚ → ℚ) (t : ℚ) :
    ∀ (n : ℕ) (s : SearchSt), InvR f t s → InvR f t (refineLoop f t n s) := by
  intro n
  induction n with
  | zero => intro s h; exact h
  | succ n ih =>
      intro s h
      obtain ⟨h1, h2, h3, h4, h5, h6⟩ := h
      rw [refineLoop_succ_eq]
      split
      · rename_i hcond
        obtain ⟨hsome, hlt⟩ := hcond
        have hbr : s.bestQuality < (s.bestQuality + s.maxQuality) / 2 := by linarith
        have hrm : (s.bestQuality + s.maxQuality) / 2 < s.maxQuality := by linarith
        split
        · rename_i hfit
          refine ih _ ⟨h1, by dsimp; linarith, by dsimp; linarith, ?_, ?_, h6⟩
          · intro q hq
            dsimp at hq ⊢
            obtain rfl : (s.bestQuality + s.maxQuality) / 2 = q := Option.some_inj.mp hq
            exact ⟨rfl, hfit⟩
          · intro hq
            simp at hq
        · rename_i hfit
          refine ih _ ⟨by dsimp; linarith, by dsimp; linarith, by dsimp; linarith, ?_, ?_, ?_⟩
          · intro q hq
            dsimp at hq ⊢
            exact h4 q hq
          · intro hq
            dsimp at hq ⊢
            exact h5 hq
          · dsimp
            right
            linarith [not_le.mp hfit]
      · exact ⟨h1, h2, h3, h4, h5, h6⟩

/-- When every quality's assembled size exceeds the target, no bisection
iteration ever records a best candidate. -/
theorem bisectStep_none (f : ℚ → ℚ) (t : ℚ) (hf : ∀ q, t < f q) (a : ℕ) (s : SearchSt)
    (h : s.bestBlob = none) : (bisectStep f t a s).bestBlob = none := by
  rw [bisectStep_eq, if_neg (not_le.mpr (hf _))]
  exact h

theorem bisectLoop_none (f : ℚ → ℚ) (t : ℚ) (hf : ∀ q, t < f q) :
    ∀ (n a : ℕ) (s : SearchSt), s.bestBlob = none →
      (bisectLoop f t a n s).bestBlob = none := by
  intro n
  induction n with
  | zero => intro a s h; exact h
  | succ n ih =>
      intro a s h
      rw [bisectLoop_succ]
      exact ih (a + 1) _ (bisectStep_none f t hf a s h)

theorem invB_invR (f : ℚ → ℚ) (t : ℚ) (s : SearchSt) (h : InvB f t s) : InvR f t s := by
  obtain ⟨h1, h2, h3, h4⟩ := h
  rcases hb : s.bestBlob with _ | q
  · obtain ⟨e1, e2⟩ := h3 hb
    exact ⟨h1, by rw [e1, e2], by rw [e1, ← e2]; exact h1,
           fun q hq => ⟨(h2 q hq).1, (h2 q hq).2.1⟩, fun _ => ⟨e1, e2⟩, h4⟩
  · obtain ⟨e1, e2, e3⟩ := h2 q hb
    exact ⟨h1, by rw [e1, ← e3], by rw [e1, ← e3]; exact h1,
           fun q hq => ⟨(h2 q hq).1, (h2 q hq).2.1⟩,
           fun hn => absurd (hb ▸ hn) (by simp), h4⟩

/-! ## Claim theorems: the target-size search -/

/-- C1 (Fit invariant): for every run of the target-size search (any
assembler oracle, any positive byte budget), if the returned
`finalQuality` is strictly greater than 0.1 then the returned blob's byte
size is at most `targetBytes`. -/
theorem compress_fit_invariant (f : ℚ → ℚ) (t : ℚ) (_h0 : 0 < t)
    (hq : 1 / 10 < (compressToTarget f t).finalQuality) :
    (compressToTarget f t).blobSize ≤ t := by
  by_cases hc : f 1 ≤ t
  · simp only [compressToTarget, if_pos hc]
    exact hc
  · have hinv : InvR f t (refineLoop f t 4 (bisectLoop f t 1 6 probedSearch)) :=
      invR_refineLoop f t 4 _
        (invB_invR f t _ (invB_bisectLoop f t 6 1 probedSearch (invB_probedSearch f t)))
    rcases hbb : (refineLoop f t 4 (bisectLoop f t 1 6 probedSearch)).bestBlob with _ | q
    · simp only [compressToTarget, if_neg hc, hbb] at hq
      norm_num at hq
    · simp only [compressToTarget, if_neg hc, hbb]
      exact (hinv.2.2.2.1 q hbb).2

/-- Witness for C1 at a concrete oracle: every assembly is 0 bytes and the
target is 1 byte, so the probe fits, `finalQuality = 1 > 0.1`, and the
returned size 0 is within the target. -/
theorem compress_fit_invariant_witness :
    (compressToTarget (fun _ => 0) 1).blobSize ≤ 1 :=
  compress_fit_invariant (fun _ => 0) 1 (by norm_num)
    (by norm_num [compressToTarget, probedSearch, initSearch])

/-- C2 (Bisection phase): when the quality-1.0 ceiling probe exceeds the
target, the bracket starts at `[0.1, 1.0]`; the bisection loop performs
exactly 6 assembler calls; after the 6 iterations the bracket width is
`(1 - 0.1) / 2 ^ 6`; and each iteration tests the bracket midpoint,
recording it as the new best (raising `minQuality` to it) when it fits,
and lowering `maxQuality` to it otherwise. -/
theorem bisection_phase_spec (f : ℚ → ℚ) (t : ℚ) (_h : t < f 1) :
    probedSearch.minQuality = 1 / 10 ∧ probedSearch.maxQuality = 1 ∧
    (bisectLoop f t 1 6 probedSearch).calls.length = probedSearch.calls.length + 6 ∧
    (bisectLoop f t 1 6 probedSearch).maxQuality
        - (bisectLoop f t 1 6 probedSearch).minQuality = (1 - 1 / 10) / 2 ^ 6 ∧
    ∀ (a : ℕ) (s : SearchSt),
      (f ((s.minQuality + s.maxQuality) / 2) ≤ t →
        (bisectStep f t a s).bestBlob = some ((s.minQuality + s.maxQuality) / 2) ∧
        (bisectStep f t a s).bestQuality = (s.minQuality + s.maxQuality) / 2 ∧
        (bisectStep f t a s).minQuality = (s.minQuality + s.maxQuality) / 2 ∧
        (bisectStep f t a s).maxQuality = s.maxQuality) ∧
      (¬ f ((s.minQuality + s.maxQuality) / 2) ≤ t →
        (bisectStep f t a s).maxQuality = (s.minQuality + s.maxQuality) / 2 ∧
        (bisectStep f t a s).minQuality = s.minQuality ∧
        (bisectStep f t a s).bestBlob = s.bestBlob ∧
        (bisectStep f t a s).bestQuality = s.bestQuality) ∧
      (bisectStep f t a s).calls = s.calls ++ [(s.minQuality + s.maxQuality) / 2] := by
  refine ⟨rfl, rfl, bisectLoop_calls_length f t 6 1 probedSearch, ?_, ?_⟩
  · rw [bisectLoop_width f t 6 1 probedSearch]
    norm_num [probedSearch, initSearch]
  · intro a s
    refine ⟨?_, ?_, bisectStep_calls f t a s⟩
    · intro hfit
      rw [bisectStep_eq, if_pos hfit]
      exact ⟨rfl, rfl, rfl, rfl⟩
    · intro hfit
      rw [bisectStep_eq, if_neg hfit]
      exact ⟨rfl, rfl, rfl, rfl⟩

/-- Witness for C2: with a constant 1-byte assembler and target 0 the
probe exceeds the target, and after the 6 bisection iterations the
bracket width is the 0.9 span divided by 2⁶. -/
theorem bisection_phase_spec_witness :
    (bisectLoop (fun _ => 1) 0 1 6 probedSearch).maxQuality
        - (bisectLoop (fun _ => 1) 0 1 6 probedSearch).minQuality = (1 - 1 / 10) / 2 ^ 6 :=
  (bisection_phase_spec (fun _ => 1) 0 (by norm_num)).2.2.2.1

/-- C3 (Refinement phase): the refinement loop is a no-op when bisection
recorded no fitting candidate; it performs at most 4 additional assembler
calls; it stops as soon as `maxQuality - bestQuality < 0.005`; and each
pass tests the midpoint `(bestQuality + maxQuality) / 2`, accepting a
fitting trial as the new best and otherwise lowering `maxQuality` to the
tried value. -/
theorem refinement_phase_spec (f : ℚ → ℚ) (t : ℚ) (_h : t < f 1) :
    ((bisectLoop f t 1 6 probedSearch).bestBlob = none →
      refineLoop f t 4 (bisectLoop f t 1 6 probedSearch) = bisectLoop f t 1 6 probedSearch) ∧
    (refineLoop f t 4 (bisectLoop f t 1 6 probedSearch)).calls.length
        ≤ (bisectLoop f t 1 6 probedSearch).calls.length + 4 ∧
    (∀ (n : ℕ) (s : SearchSt), s.maxQuality - s.bestQuality < 5 / 1000 →
      refineLoop f t n s = s) ∧
    ∀ (n : ℕ) (s : SearchSt), s.bestBlob.isSome →
      s.bestQuality < s.maxQuality - 5 / 1000 →
      refineLoop f t (n + 1) s =
        (if f ((s.bestQuality + s.maxQuality) / 2) ≤ t then
          refineLoop f t n
            { s with bestBlob := some ((s.bestQuality + s.maxQuality) / 2),
                     bestQuality := (s.bestQuality + s.maxQuality) / 2,
                     calls := s.calls ++ [(s.bestQuality + s.maxQuality) / 2],
                     events := s.events ++ [PEvent.refine] }
        else
          refineLoop f t n
            { s with maxQuality := (s.bestQuality + s.maxQuality) / 2,
                     calls := s.calls ++ [(s.bestQuality + s.maxQuality) / 2],
                     events := s.events ++ [PEvent.refine] }) :=
  ⟨fun hb => refineLoop_of_none f t 4 _ hb,
   refineLoop_calls_length_le f t 4 _,
   fun n s hgap => refineLoop_of_gap f t n s hgap,
   fun n s h1 h2 => by rw [refineLoop_succ_eq, if_pos (And.intro h1 h2)]⟩

/-- Witness for C3: with a constant 1-byte assembler and target 0 nothing
ever fits, bisection records no candidate, and refinement is a no-op. -/
theorem refinement_phase_spec_witness :
    refineLoop (fun _ => 1) 0 4 (bisectLoop (fun _ => 1) 0 1 6 probedSearch)
      = bisectLoop (fun _ => 1) 0 1 6 probedSearch :=
  (refinement_phase_spec (fun _ => 1) 0 (by norm_num)).1
    (by norm_num [bisectLoop, bisectStep, probedSearch, initSearch])

/-- C4 (Ceiling short-circuit): when the assembled output at quality 1.0
already fits the target, the search performs exactly one assembler call
and returns that blob with `finalQuality = 1`. -/
theorem ceiling_short_circuit (f : ℚ → ℚ) (t : ℚ) (h : f 1 ≤ t) :
    (compressToTarget f t).calls = [1] ∧
    (compressToTarget f t).finalQuality = 1 ∧
    (compressToTarget f t).blobQ = 1 ∧
    (compressToTarget f t).blobSize = f 1 := by
  simp only [compressToTarget, if_pos h]
  refine ⟨by simp [probedSearch, initSearch], by simp, by simp, by simp⟩

/-- Witness for C4 at a concrete oracle: constant 0-byte assembly, 1-byte
target. -/
theorem ceiling_short_circuit_witness :
    (compressToTarget (fun _ => 0) 1).calls = [1] ∧
    (compressToTarget (fun _ => 0) 1).finalQuality = 1 ∧
    (compressToTarget (fun _ => 0) 1).blobQ = 1 ∧
    (compressToTarget (fun _ => 0) 1).blobSize = (fun (_ : ℚ) => (0 : ℚ)) 1 :=
  ceiling_short_circuit (fun _ => 0) 1 (by norm_num)

/-- C5 (Best-effort fallback): when no quality's assembled size fits the
target, the search returns the quality-0.1 blob with `finalQuality = 0.1`
even though its size exceeds `targetBytes`; the (total) function
`compressToTarget` returns this blob rather than failing. -/
theorem fallback_best_effort (f : ℚ → ℚ) (t : ℚ) (h : ∀ q, t < f q) :
    (compressToTarget f t).blobQ = 1 / 10 ∧
    (compressToTarget f t).finalQuality = 1 / 10 ∧
    (compressToTarget f t).blobSize = f (1 / 10) ∧
    t < (compressToTarget f t).blobSize := by
  have hc : ¬ f 1 ≤ t := not_le.mpr (h 1)
  have hbn : (bisectLoop f t 1 6 probedSearch).bestBlob = none :=
    bisectLoop_none f t h 6 1 probedSearch rfl
  have hr : refineLoop f t 4 (bisectLoop f t 1 6 probedSearch)
      = bisectLoop f t 1 6 probedSearch :=
    refineLoop_of_none f t 4 _ hbn
  simp only [compressToTarget, if_neg hc, hr, hbn]
  refine ⟨by simp, by simp, by simp, h _⟩

/-- Witness for C5 at a concrete oracle: every assembly is 5 bytes, the
target is 2 bytes, so the fallback returns the 0.1-quality blob whose
5-byte size exceeds the target. -/
theorem fallback_best_effort_witness :
    (compressToTarget (fun _ => 5) 2).blobQ = 1 / 10 ∧
    (compressToTarget (fun _ => 5) 2).finalQuality = 1 / 10 ∧
    (compressToTarget (fun _ => 5) 2).blobSize = (fun (_ : ℚ) => (5 : ℚ)) (1 / 10) ∧
    (2 : ℚ) < (compressToTarget (fun _ => 5) 2).blobSize :=
  fallback_best_effort (fun _ => 5) 2 (fun _ => by norm_num)

/-- C6 (Bounded call count): every run of the target-size search performs
at most 11 + 1 assembler calls (1 probe + 6 bisection + 4 refinement,
plus 1 for the fallback), and exactly 1 call in the best case where the
ceiling probe fits. -/
theorem bounded_call_count (f : ℚ → ℚ) (t : ℚ) :
    (compressToTarget f t).calls.length ≤ 11 + 1 ∧
    (f 1 ≤ t → (compressToTarget f t).calls.length = 1) := by
  constructor
  · by_cases hc : f 1 ≤ t
    · simp only [compressToTarget, if_pos hc]
      norm_num [probedSearch, initSearch]
    · have h6 : (bisectLoop f t 1 6 probedSearch).calls.length = 7 := by
        rw [bisectLoop_calls_length f t 6 1 probedSearch]
        rfl
      have h4 : (refineLoop f t 4 (bisectLoop f t 1 6 probedSearch)).calls.length ≤ 11 := by
        have hle := refineLoop_calls_length_le f t 4 (bisectLoop f t 1 6 probedSearch)
        omega
      rcases hbb : (refineLoop f t 4 (bisectLoop f t 1 6 probedSearch)).bestBlob with _ | q
      · simp only [compressToTarget, if_neg hc, hbb, List.length_append,
          List.length_singleton]
        omega
      · simp only [compressToTarget, if_neg hc, hbb]
        omega
  · intro hc
    simp only [compressToTarget, if_pos hc]
    rfl

/-- Witness for C6's best-case hypothesis at a concrete oracle. -/
theorem bounded_call_count_witness :
    (compressToTarget (fun _ => 0) 1).calls.length ≤ 11 + 1 ∧
    (compressToTarget (fun _ => 0) 1).calls.length = 1 :=
  ⟨(bounded_call_count (fun _ => 0) 1).1,
   (bounded_call_count (fun _ => 0) 1).2 (by norm_num)⟩

/-- C7 counterexample: a reachable search state in which the claimed
invariant "minQuality is always the quality of the best candidate (or the
initial floor)" fails.  With `cexAssembler` and a 1000-byte target the
ceiling probe exceeds the target, bisection fixes the best candidate at
quality 0.55 (= `minQuality`), and the refinement loop then accepts a
better candidate without updating `minQuality`: in the state after
refinement the best candidate is present but `minQuality ≠ bestQuality`
(0.55 vs 713/1280), and `minQuality` is not the 0.1 floor either. -/
theorem searchstate_min_not_best_cex :
    1000 < cexAssembler 1 ∧
    (refineLoop cexAssembler 1000 4
        (bisectLoop cexAssembler 1000 1 6 probedSearch)).bestBlob.isSome = true ∧
    (refineLoop cexAssembler 1000 4
        (bisectLoop cexAssembler 1000 1 6 probedSearch)).minQuality ≠
      (refineLoop cexAssembler 1000 4
        (bisectLoop cexAssembler 1000 1 6 probedSearch)).bestQuality ∧
    (refineLoop cexAssembler 1000 4
        (bisectLoop cexAssembler 1000 1 6 probedSearch)).minQuality ≠ 1 / 10 := by
  norm_num [cexAssembler, refineLoop, bisectLoop, bisectStep, probedSearch, initSearch]

/-- C7 (SearchState invariant, amended): at every point of the bisection
phase (any iteration count `k`) the state satisfies `InvB`: the bracket is
ordered, the best candidate when present fits the target and equals both
`bestQuality` and `minQuality`, when absent `bestQuality` and `minQuality`
are the 0.1 floor, and `maxQuality` is the initial ceiling or a quality
known to exceed the target.  At every point of the refinement phase (any
pass count `m`) the state satisfies the weaker `InvR`: the refinement loop
never updates `minQuality`, so `minQuality` is only a lower bound on
`bestQuality` there, no longer equal to it. -/
theorem searchstate_invariant_amended (f : ℚ → ℚ) (t : ℚ) (k m : ℕ) :
    InvB f t (bisectLoop f t 1 k probedSearch) ∧
    InvR f t (refineLoop f t m (bisectLoop f t 1 6 probedSearch)) :=
  ⟨invB_bisectLoop f t k 1 probedSearch (invB_probedSearch f t),
   invR_refineLoop f t m _
     (invB_invR f t _ (invB_bisectLoop f t 6 1 probedSearch (invB_probedSearch f t)))⟩

/-- C8 counterexample: the progress callbacks of the refinement phase
carry no attempt index (the `attempt` field is absent from the object
literal at lines 270–275), contradicting the claim that every progress
invocation carries one: in the concrete `cexAssembler` run a refinement
event occurs, and its attempt field is `none`.  Likewise the `stage`
passed is always `"optimizing"`, never a `probing`/`bisecting`/
`refining`/`fallback` value. -/
theorem progress_attempt_cex :
    PEvent.refine ∈ (compressToTarget cexAssembler 1000).events ∧
    PEvent.refine.attempt = none ∧
    PEvent.refine.stage = Stage.optimizing := by
  refine ⟨?_, rfl, rfl⟩
  norm_num [compressToTarget, cexAssembler, refineLoop, bisectLoop, bisectStep,
    probedSearch, initSearch]

/-- C8 (Progress reporting, amended): progress invocations occur in the
strict order probe → bisection (6 iterations, attempts 1..6) → refinement
(≤ 4) → fallback (if needed): the run's event trace is exactly the
initial announcement and the probe event, followed (when the probe does
not fit) by the six bisection events in attempt order, then `k ≤ 4`
refinement events, then possibly one fallback event.  All these call
sites pass stage `"optimizing"` (the phase is carried by the message
text, not a dedicated field) and the attempt index is present only for
the announcement (0), the probe (1) and the bisection iterations, not for
refinement or fallback callbacks. -/
theorem progress_order_amended (f : ℚ → ℚ) (t : ℚ) :
    (∃ k, k ≤ 4 ∧
      ((f 1 ≤ t ∧ (compressToTarget f t).events = [PEvent.optStart, PEvent.probe]) ∨
       (t < f 1 ∧
         ((compressToTarget f t).events
              = [PEvent.optStart, PEvent.probe]
                ++ (List.range 6).map (fun i => PEvent.bisect (1 + i))
                ++ List.replicate k PEvent.refine ∨
          (compressToTarget f t).events
              = [PEvent.optStart, PEvent.probe]
                ++ (List.range 6).map (fun i => PEvent.bisect (1 + i))
                ++ List.replicate k PEvent.refine ++ [PEvent.fallback])))) ∧
    (∀ e : PEvent, e ∈ (compressToTarget f t).events → e.stage = Stage.optimizing) ∧
    (∀ a, (PEvent.bisect a).attempt = some a) ∧
    PEvent.optStart.attempt = some 0 ∧
    PEvent.probe.attempt = some 1 ∧
    PEvent.refine.attempt = none ∧
    PEvent.fallback.attempt = none := by
  have hbe : (bisectLoop f t 1 6 probedSearch).events
      = [PEvent.optStart, PEvent.probe]
          ++ (List.range 6).map (fun i => PEvent.bisect (1 + i)) := by
    rw [bisectLoop_events f t 6 1 probedSearch]
    rfl
  have hshape : ∃ k, k ≤ 4 ∧
      ((f 1 ≤ t ∧ (compressToTarget f t).events = [PEvent.optStart, PEvent.probe]) ∨
       (t < f 1 ∧
         ((compressToTarget f t).events
              = [PEvent.optStart, PEvent.probe]
                ++ (List.range 6).map (fun i => PEvent.bisect (1 + i))
                ++ List.replicate k PEvent.refine ∨
          (compressToTarget f t).events
              = [PEvent.optStart, PEvent.probe]
                ++ (List.range 6).map (fun i => PEvent.bisect (1 + i))
                ++ List.replicate k PEvent.refine ++ [PEvent.fallback]))) := by
    by_cases hc : f 1 ≤ t
    · refine ⟨0, by omega, Or.inl ⟨hc, ?_⟩⟩
      simp only [compressToTarget, if_pos hc]
      rfl
    · obtain ⟨k, hk, he⟩ :=
        refineLoop_events_replicate f t 4 (bisectLoop f t 1 6 probedSearch)
      refine ⟨k, hk, Or.inr ⟨not_le.mp hc, ?_⟩⟩
      rcases hbb : (refineLoop f t 4 (bisectLoop f t 1 6 probedSearch)).bestBlob with _ | q
      · right
        simp only [compressToTarget, if_neg hc, hbb]
        rw [he, hbe]
      · left
        simp only [compressToTarget, if_neg hc, hbb]
        rw [he, hbe]
  refine ⟨hshape, ?_, fun a => rfl, rfl, rfl, rfl, rfl⟩
  obtain ⟨k, -, hsh⟩ := hshape
  intro e he
  rcases hsh with ⟨-, hev⟩ | ⟨-, hev | hev⟩ <;> rw [hev] at he <;>
    cases e <;> first | rfl | simp at he

/-- The target-size branch of `compressPDF` is exactly `compressToTarget`
at `targetBytes = targetSizeMB * 1024 * 1024` (truthy `targetSizeMB`). -/
theorem compressPDF_target_eq (f : ℚ → ℚ) (q mb : ℚ) (h : mb ≠ 0) :
    compressPDF f ⟨q, some mb⟩ =
      { blobQ := (compressToTarget f (mb * 1024 * 1024)).blobQ,
        compressedSize := (compressToTarget f (mb * 1024 * 1024)).blobSize,
        finalQuality := some (compressToTarget f (mb * 1024 * 1024)).finalQuality,
        calls := (compressToTarget f (mb * 1024 * 1024)).calls,
        events := (compressToTarget f (mb * 1024 * 1024)).events ++ [PEvent.complete] } := by
  simp [compressPDF, h]

/-! ## Claim theorems: the JSON formatter -/

/-- C9 (Error atomicity): for every input that is not valid JSON — the
empty or all-whitespace string, or any input the host's `JSON.parse`
rejects — `formatJSON` and `minifyJSON` return `success = false` with
output exactly equal to the original input and a non-empty error message
(given that the host's parse error messages are non-empty, as the real
`JSON.parse`'s `SyntaxError` messages are). -/
theorem json_error_atomicity (H : JSHost) (input : String) (options : FormatOptions)
    (hMsg : ∀ s m, H.parse s = .error m → m ≠ "")
    (hBad : jsTrim input = "" ∨ ∃ m, H.parse input = .error m) :
    ((formatJSON H input options).success = false ∧
     (formatJSON H input options).output = input ∧
     ∃ e, (formatJSON H input options).error = some e ∧ e ≠ "") ∧
    ((minifyJSON H input).success = false ∧
     (minifyJSON H input).output = input ∧
     ∃ e, (minifyJSON H input).error = some e ∧ e ≠ "") := by
  by_cases ht : jsTrim input = ""
  · constructor <;>
      refine ⟨?_, ?_, "Input is empty", ?_, by decide⟩ <;>
        simp [formatJSON, minifyJSON, validateJSON, ht]
  · obtain ⟨m, hm⟩ := hBad.resolve_left ht
    constructor <;>
      refine ⟨?_, ?_, m, ?_, hMsg input m hm⟩ <;>
        simp [formatJSON, minifyJSON, validateJSON, ht, hm]

/-- Witness for C9 at a concrete host and input: `errHost` rejects every
string with the message "bad", and the input "x" is returned unchanged
with that error by both functions. -/
theorem json_error_atomicity_witness :
    ((formatJSON errHost "x" DEFAULT_FORMAT_OPTIONS).success = false ∧
     (formatJSON errHost "x" DEFAULT_FORMAT_OPTIONS).output = "x" ∧
     ∃ e, (formatJSON errHost "x" DEFAULT_FORMAT_OPTIONS).error = some e ∧ e ≠ "") ∧
    ((minifyJSON errHost "x").success = false ∧
     (minifyJSON errHost "x").output = "x" ∧
     ∃ e, (minifyJSON errHost "x").error = some e ∧ e ≠ "") :=
  json_error_atomicity errHost "x" DEFAULT_FORMAT_OPTIONS
    (fun _ m h => by cases h; decide)
    (Or.inr ⟨"bad", rfl⟩)

/-- C10 (Round-trip of formatting): for every input the validator accepts
(non-whitespace and parsed by the host to a value `v`), `formatJSON` with
`sortKeys = false` succeeds and its output parses back to that same value
`v`, provided the host's `stringify`/`parse` pair round-trips on `v` — a
property of the real `JSON.stringify`/`JSON.parse` (formatting changes
only whitespace); likewise `minifyJSON`. -/
theorem json_format_roundtrip (H : JSHost) (input : String) (options : FormatOptions)
    (v : Json)
    (hSort : options.sortKeys = false)
    (hTrim : ¬ jsTrim input = "")
    (hParse : H.parse input = .ok v)
    (hRT : ∀ ind, H.parse (H.stringifyWith v ind) = .ok v)
    (hRTmin : H.parse (H.stringify v) = .ok v) :
    (formatJSON H input options).success = true ∧
    H.parse ((formatJSON H input options).output) = .ok v ∧
    (minifyJSON H input).success = true ∧
    H.parse ((minifyJSON H input).output) = .ok v := by
  refine ⟨?_, ?_, ?_, ?_⟩ <;>
    simp [formatJSON, minifyJSON, validateJSON, hTrim, hParse, hSort, hRT, hRTmin]

/-- Witness for C10 at a concrete host and input: `oneHost` parses "1" to
the number 1 and stringifies it back to "1". -/
theorem json_format_roundtrip_witness :
    (formatJSON oneHost "1" DEFAULT_FORMAT_OPTIONS).success = true ∧
    oneHost.parse ((formatJSON oneHost "1" DEFAULT_FORMAT_OPTIONS).output)
      = .ok (.num 1) ∧
    (minifyJSON oneHost "1").success = true ∧
    oneHost.parse ((minifyJSON oneHost "1").output) = .ok (.num 1) :=
  json_format_roundtrip oneHost "1" DEFAULT_FORMAT_OPTIONS (.num 1)
    rfl (by decide) rfl (fun _ => rfl) rfl
